import Mathlib

/-!
Verification development for the glos-geo repository: a shallow embedding of
the hexagonal indexing, deduplication, aggregation and remote-order logic of
the two notebooks (hex-pdal.ipynb and the unnamed CSB notebook), together
with theorems settling the specification claims about them.
-/

namespace GlosGeo

/-! ## Data model -/

/-- Modelled from the spec: a CellIdentifier is an opaque, fixed-width token
deterministically derived from (latitude, longitude, resolution).  The h3
library that produces it is external to the repository; it is modelled as a
grid snap (floor of the scaled coordinates), which is a pure deterministic
function of its inputs, is resolution-local, and maps many nearby coordinates
to one identifier — exactly the properties the spec assigns to the indexer. -/
structure CellId where
  i : ℤ
  j : ℤ
  res : ℕ
deriving DecidableEq, Repr

/-- Modelled from the spec: the external call h3.geo_to_h3(lat, lon, res).
Equal inputs at equal resolution always yield equal identifiers. -/
def geo_to_h3 (lat lon : ℚ) (res : ℕ) : CellId :=
  ⟨⌊lat * 2 ^ res⌋, ⌊lon * 2 ^ res⌋, res⟩

/-- Modelled from the spec: the external call h3.h3_to_geo_boundary(c,
geo_json=True): the closed boundary ring of a cell, vertices as
(longitude, latitude) pairs with the first vertex repeated as the last. -/
def h3_to_geo_boundary (c : CellId) : List (ℚ × ℚ) :=
  [ ((c.j : ℚ) / 2 ^ c.res, (c.i : ℚ) / 2 ^ c.res),
    (((c.j : ℚ) + 1) / 2 ^ c.res, (c.i : ℚ) / 2 ^ c.res),
    (((c.j : ℚ) + 1) / 2 ^ c.res, ((c.i : ℚ) + 1) / 2 ^ c.res),
    ((c.j : ℚ) / 2 ^ c.res, ((c.i : ℚ) + 1) / 2 ^ c.res),
    ((c.j : ℚ) / 2 ^ c.res, (c.i : ℚ) / 2 ^ c.res) ]

/-- One row of the CSB csv file read by create_csb_gdf: lat, lon, depth,
time and provider columns. -/
structure CsbRow where
  lat : ℚ
  lon : ℚ
  depth : ℚ
  time : String
  provider : String
deriving DecidableEq, Repr

/-- The meta_dict passed to create_csb_gdf. -/
structure CsbMeta where
  survey : String
  surveytype : String
  url : String
deriving DecidableEq, Repr

/-- One output row of create_csb_gdf, i.e. an IndexedRecord: the keep_cols
schema ['survey','surveyOrg','surveyDate','surveyType','URL','h3_index',
'geometry'] of the geodataframe. -/
structure IndexedRecord where
  survey : String
  surveyOrg : String
  surveyDate : String
  surveyType : String
  URL : String
  h3_index : CellId
  geometry : List (ℚ × ℚ)
deriving DecidableEq, Repr

/-- Models pd.to_datetime followed by strftime %Y%m on an ISO-8601 style
timestamp string: the year digits followed by the month digits. -/
def surveyDateOf (time : String) : String :=
  time.take 4 ++ (time.drop 5).take 2

/-- Embedding of create_csb_gdf (unnamed notebook): every csv row is given
the embedded metadata, its h3 index at resolution 11 and that cell's
geometry; the keep_cols columns are retained.  The code applies the indexer
row by row with no validation, no filtering and no collapsing of rows. -/
def create_csb_gdf (rows : List CsbRow) (meta : CsbMeta) : List IndexedRecord :=
  rows.map (fun r =>
    { survey := meta.survey
      surveyOrg := r.provider
      surveyDate := surveyDateOf r.time
      surveyType := meta.surveytype
      URL := meta.url
      h3_index := geo_to_h3 r.lat r.lon 11
      geometry := h3_to_geo_boundary (geo_to_h3 r.lat r.lon 11) })

/-- The notebook's metadata dictionary for the CSB pipeline. -/
def metadataDict : CsbMeta :=
  { survey := "Crowdsourced Bathymetry"
    surveytype := "SBES"
    url := "https://www.ncei.noaa.gov/maps/iho_dcdb/" }

/-! ## Deduplicator -/

/-- Helper for drop_duplicates: scans the list keeping the first occurrence
of each value, carrying the set of values already seen. -/
def dd_aux {α : Type} [DecidableEq α] : List α → List α → List α
  | [], _ => []
  | a :: l, seen => if a ∈ seen then dd_aux l seen else a :: dd_aux l (a :: seen)

/-- Embedding of pandas DataFrame.drop_duplicates() followed by
reset_index(drop=True), as used on the merged geodataframes in both
notebooks: rows identical across every column are collapsed to their first
occurrence, survivors keep the input order, and the result is a plain list
so positions are again contiguous from zero. -/
def drop_duplicates {α : Type} [DecidableEq α] (l : List α) : List α :=
  dd_aux l []

/-! ## Indexer (hex-pdal notebook) -/

/-- The set(...) step inside create_h3_hex: the h3 indices of all
(lat, lon) pairs, with duplicates collapsed (Python's set is modelled as
first-occurrence deduplication; the claims below depend only on cardinality
and membership, not on the unspecified iteration order of a Python set). -/
def h3_index_set (h3_res : ℕ) (lats lons : List ℚ) : List CellId :=
  drop_duplicates ((lats.zip lons).map (fun p => geo_to_h3 p.1 p.2 h3_res))

/-- Embedding of create_h3_hex (hex-pdal notebook): the deduplicated h3
indices of the coordinate arrays, converted to boundary polygons. -/
def create_h3_hex (h3_res : ℕ) (lats lons : List ℚ) : List (List (ℚ × ℚ)) :=
  (h3_index_set h3_res lats lons).map h3_to_geo_boundary

/-! ## Multi-resolution driver (hex-pdal notebook) -/

/-- The output path computed inside the per-source indexing loop:
os.path.join(outpath, f"{survname}_h3-{str(hex_level)}.geojson").  The loop
variable holding the current source file is not part of the name, which is
why it appears here as an unused argument. -/
def per_source_output (outpath survname : String) (_source : String) (hex_level : ℕ) : String :=
  outpath ++ "/" ++ survname ++ "_h3-" ++ toString hex_level ++ ".geojson"

/-- The zero-padded resolution label used for the merged, deduplicated
outputs: f"0{i}" if i < 10 else str(i). -/
def formatted_value (i : ℕ) : String :=
  if i < 10 then "0" ++ toString i else toString i

/-! ## Aggregator -/

/-- Modelled from the spec: the pandas median aggregation (the median
implementation itself lives in the pandas library, outside the repository).
Sort the values; an odd count takes the middle value, an even count the
average of the two middle values; an empty group has no median. -/
def median (l : List ℚ) : Option ℚ :=
  if l.length = 0 then none
  else if l.length % 2 = 1 then
    some ((List.insertionSort (fun a b => a ≤ b) l).getD (l.length / 2) 0)
  else
    some (((List.insertionSort (fun a b => a ≤ b) l).getD (l.length / 2 - 1) 0
         + (List.insertionSort (fun a b => a ≤ b) l).getD (l.length / 2) 0) / 2)

/-- Embedding of df.groupby('h3_index').agg({'depth': 'median'}).reset_index()
(unnamed notebook): rows are (h3_index, depth) pairs; one output row per
distinct key, holding the key and the median of the key's depth values.
pandas sorts the group keys, modelled by insertionSort over the distinct
keys. -/
def grouped_median (rows : List (String × ℚ)) : List (String × Option ℚ) :=
  (List.insertionSort (fun a b => a ≤ b) (drop_duplicates (rows.map Prod.fst))).map
    (fun k => (k, median ((rows.filter (fun r => r.1 == k)).map Prod.snd)))

/-! ## Remote order API (unnamed notebook) -/

/-- The HTTP response to the order-submission POST, with the parsed JSON
body modelled opaquely as a string. -/
structure HttpResponse where
  status_code : ℕ
  body : String
deriving DecidableEq, Repr

/-- Embedding of the response handling in csb_api_call: a 201 response
returns response.json(); any other status prints an error message and the
function falls off the end, returning Python's None (the request
construction and the network call itself are external I/O). -/
def csb_api_call (resp : HttpResponse) : Option String :=
  if resp.status_code = 201 then some resp.body else none

/-- The parsed JSON body of one status query: the HTTP status code, the
optional 'status' field and the optional 'output_location' field. -/
structure StatusResponse where
  status_code : ℕ
  status : Option String
  output_location : Option String
deriving DecidableEq, Repr

/-- Python's str.split for a one-character separator, on the character
list of the string. -/
def splitChar (sep : Char) : List Char → List (List Char)
  | [] => [[]]
  | c :: cs =>
    if c = sep then [] :: splitChar sep cs
    else (c :: (splitChar sep cs).headD []) :: (splitChar sep cs).tail

/-- Embedding of output_location.split("/")[-1]: the last piece of the
string split on '/'. -/
def lastSegment (s : String) : String :=
  String.mk ((splitChar '/' s.data).getLastD [])

/-- Embedding of api_call_status (unnamed notebook): a 200 response whose
status field is 'complete' returns the last path segment of
output_location; a 200 response that is not complete, or any non-200
response, prints a message and returns None.  The error value models the
AttributeError Python would raise if a complete order carried no
output_location (None.split). -/
def api_call_status (resp : StatusResponse) : Except String (Option String) :=
  if resp.status_code = 200 then
    if resp.status = some "complete" then
      match resp.output_location with
      | some loc => Except.ok (some (lastSegment loc))
      | none => Except.error "AttributeError"
    else Except.ok none
  else Except.ok none

/-- The notebook's single status query: csb_csv = api_call_status(csb["url"]).
The remote service is modelled as the sequence of responses it would give to
successive polls; the notebook issues exactly one GET, so only the first
response is ever consumed. -/
def run_status_query (remote : ℕ → StatusResponse) : Except String (Option String) :=
  api_call_status (remote 0)

/-- A remote order that is still pending on the first poll and complete from
the second poll on. -/
def pendingThenComplete : ℕ → StatusResponse := fun n =>
  if n = 0 then ⟨200, some "pending", none⟩
  else ⟨200, some "complete", some "https://order-pickup.s3.amazonaws.com/file.csv"⟩

/-- Geographic validity of a coordinate pair as the spec defines it. -/
def validCoord (lat lon : ℚ) : Prop :=
  -90 ≤ lat ∧ lat ≤ 90 ∧ -180 ≤ lon ∧ lon ≤ 180

/-! ## Deduplicator lemmas -/

theorem dd_aux_mem {α : Type} [DecidableEq α] (l : List α) (seen : List α) (x : α) :
    x ∈ dd_aux l seen ↔ x ∈ l ∧ x ∉ seen := by
  induction l generalizing seen with
  | nil => simp [dd_aux]
  | cons a l ih =>
    by_cases h : a ∈ seen
    · simp only [dd_aux, if_pos h, ih, List.mem_cons]
      constructor
      · exact fun ⟨h1, h2⟩ => ⟨Or.inr h1, h2⟩
      · rintro ⟨h1 | h1, h2⟩
        · exact absurd (h1 ▸ h) h2
        · exact ⟨h1, h2⟩
    · simp only [dd_aux, if_neg h, List.mem_cons, ih]
      by_cases hx : x = a
      · subst hx; simp [h]
      · simp [hx]

theorem dd_aux_nodup {α : Type} [DecidableEq α] (l : List α) (seen : List α) :
    (dd_aux l seen).Nodup := by
  induction l generalizing seen with
  | nil => simp [dd_aux]
  | cons a l ih =>
    by_cases h : a ∈ seen
    · simpa [dd_aux, if_pos h] using ih seen
    · simp only [dd_aux, if_neg h, List.nodup_cons]
      refine ⟨fun hmem => ?_, ih (a :: seen)⟩
      exact ((dd_aux_mem l (a :: seen) a).mp hmem).2 (List.mem_cons_self a seen)

theorem dd_aux_sublist {α : Type} [DecidableEq α] (l : List α) (seen : List α) :
    List.Sublist (dd_aux l seen) l := by
  induction l generalizing seen with
  | nil => simp [dd_aux]
  | cons a l ih =>
    by_cases h : a ∈ seen
    · simpa [dd_aux, if_pos h] using List.Sublist.cons a (ih seen)
    · simpa [dd_aux, if_neg h] using List.Sublist.cons₂ a (ih (a :: seen))

theorem dd_aux_pairwise {α : Type} [DecidableEq α] (l : List α) (seen : List α) :
    (dd_aux l seen).Pairwise (fun x y => l.indexOf x < l.indexOf y) := by
  induction l generalizing seen with
  | nil => simp [dd_aux]
  | cons a l ih =>
    by_cases h : a ∈ seen
    · simp only [dd_aux, if_pos h]
      refine (ih seen).imp_of_mem (fun {x y} hx hy hr => ?_)
      have hxa : x ≠ a := fun e => ((dd_aux_mem l seen x).mp hx).2 (e ▸ h)
      have hya : y ≠ a := fun e => ((dd_aux_mem l seen y).mp hy).2 (e ▸ h)
      rw [List.indexOf_cons_ne l (Ne.symm hxa), List.indexOf_cons_ne l (Ne.symm hya)]
      exact Nat.succ_lt_succ hr
    · simp only [dd_aux, if_neg h, List.pairwise_cons]
      constructor
      · intro y hy
        have hya : y ≠ a :=
          fun e => ((dd_aux_mem l (a :: seen) y).mp hy).2 (e ▸ List.mem_cons_self a seen)
        rw [List.indexOf_cons_self, List.indexOf_cons_ne l (Ne.symm hya)]
        exact Nat.succ_pos _
      · refine (ih (a :: seen)).imp_of_mem (fun {x y} hx hy hr => ?_)
        have hxa : x ≠ a :=
          fun e => ((dd_aux_mem l (a :: seen) x).mp hx).2 (e ▸ List.mem_cons_self a seen)
        have hya : y ≠ a :=
          fun e => ((dd_aux_mem l (a :: seen) y).mp hy).2 (e ▸ List.mem_cons_self a seen)
        rw [List.indexOf_cons_ne l (Ne.symm hxa), List.indexOf_cons_ne l (Ne.symm hya)]
        exact Nat.succ_lt_succ hr

theorem drop_duplicates_mem {α : Type} [DecidableEq α] (l : List α) (x : α) :
    x ∈ drop_duplicates l ↔ x ∈ l := by
  simp [drop_duplicates, dd_aux_mem]

theorem drop_duplicates_nodup {α : Type} [DecidableEq α] (l : List α) :
    (drop_duplicates l).Nodup :=
  dd_aux_nodup l []

theorem dd_aux_of_nodup {α : Type} [DecidableEq α] (l : List α) (seen : List α)
    (hn : l.Nodup) (hd : ∀ x ∈ l, x ∉ seen) : dd_aux l seen = l := by
  induction l generalizing seen with
  | nil => rfl
  | cons a l ih =>
    have ha : a ∉ seen := hd a (List.mem_cons_self a l)
    simp only [dd_aux, if_neg ha]
    congr 1
    refine ih (a :: seen) (List.Nodup.of_cons hn) (fun x hx hmem => ?_)
    rcases List.mem_cons.mp hmem with h1 | h1
    · exact (List.nodup_cons.mp hn).1 (h1 ▸ hx)
    · exact hd x (List.mem_cons_of_mem a hx) h1

theorem drop_duplicates_of_nodup {α : Type} [DecidableEq α] (l : List α)
    (hn : l.Nodup) : drop_duplicates l = l :=
  dd_aux_of_nodup l [] hn (by simp)

/-- C1: given a collection of IndexedRecords possibly containing exact
duplicates (identical across every tracked attribute, including the cell
identifier and the geometry), drop_duplicates returns the same schema with
duplicates collapsed to a single representative, preserving first-seen
order, with positions renumbered contiguously: the result has no duplicate
record, holds exactly the records of the input, is a sublist of the input,
and lists survivors in strictly increasing order of their first occurrence
in the input; renumbering from zero is inherent in the list result. -/
theorem drop_duplicates_collapses_preserving_first_seen_order (l : List IndexedRecord) :
    (drop_duplicates l).Nodup ∧
    (∀ x, x ∈ drop_duplicates l ↔ x ∈ l) ∧
    List.Sublist (drop_duplicates l) l ∧
    (drop_duplicates l).Pairwise (fun x y => l.indexOf x < l.indexOf y) :=
  ⟨drop_duplicates_nodup l, fun x => drop_duplicates_mem l x,
    dd_aux_sublist l [], dd_aux_pairwise l []⟩

/-- C2: the Deduplicator is idempotent: applying drop_duplicates twice to a
collection of IndexedRecords yields exactly the result of applying it once. -/
theorem drop_duplicates_idempotent (l : List IndexedRecord) :
    drop_duplicates (drop_duplicates l) = drop_duplicates l :=
  drop_duplicates_of_nodup _ (drop_duplicates_nodup l)

/-! ## Aggregator lemmas -/

theorem grouped_median_mem_eq (rows : List (String × ℚ)) (k : String) (m : Option ℚ)
    (hm : (k, m) ∈ grouped_median rows) :
    m = median ((rows.filter (fun r => r.1 == k)).map Prod.snd) := by
  simp only [grouped_median, List.mem_map] at hm
  obtain ⟨k2, _, he⟩ := hm
  have h1 := congrArg Prod.fst he
  have h2 := congrArg Prod.snd he
  simp only at h1 h2
  subst h1
  exact h2.symm

theorem grouped_median_keys (rows : List (String × ℚ)) :
    (grouped_median rows).map Prod.fst
      = List.insertionSort (fun a b => a ≤ b) (drop_duplicates (rows.map Prod.fst)) := by
  simp only [grouped_median, List.map_map]
  have h : (Prod.fst ∘ fun k : String =>
      (k, median ((rows.filter (fun r => r.1 == k)).map Prod.snd))) = id := rfl
  rw [h, List.map_id]

/-- C3: every group produced by the Aggregator carries the true statistical
median of the group's depth values (sorted middle value, averaging the two
middle values when the count is even); in particular depths [1, 3, 5] yield
3 and depths [1, 2, 3, 4] yield 5/2. -/
theorem grouped_median_true_median :
    (∀ rows k m, (k, m) ∈ grouped_median rows →
        m = median ((rows.filter (fun r => r.1 == k)).map Prod.snd)) ∧
    grouped_median [("c", (1:ℚ)), ("c", 3), ("c", 5)] = [("c", some 3)] ∧
    grouped_median [("c", (1:ℚ)), ("c", 2), ("c", 3), ("c", 4)] = [("c", some (5/2))] := by
  refine ⟨grouped_median_mem_eq, ?_, ?_⟩
  · norm_num [grouped_median, drop_duplicates, dd_aux, median,
      List.insertionSort, List.orderedInsert]
  · norm_num [grouped_median, drop_duplicates, dd_aux, median,
      List.insertionSort, List.orderedInsert]

/-- Witness for C3 at a concrete input: the singleton group of depth 2. -/
theorem grouped_median_true_median_witness :
    (("d", some (2:ℚ)) ∈ grouped_median [("d", (2:ℚ))]) ∧
    some (2:ℚ) = median (([(("d" : String), (2:ℚ))].filter (fun r => r.1 == "d")).map Prod.snd) :=
  ⟨by decide, grouped_median_true_median.1 [("d", 2)] "d" (some 2) (by decide)⟩

/-- C4 counterexample: the aggregated output rows carry no count of
contributing records.  Two inputs whose sole group has 2 and 3 contributing
records respectively produce exactly the same summary record, so no function
of a summary record can return the count of contributing records. -/
theorem grouped_median_omits_count :
    ¬ ∃ cnt : String × Option ℚ → ℕ,
        ∀ rows k m, (k, m) ∈ grouped_median rows →
          cnt (k, m) = (rows.filter (fun r => r.1 == k)).length := by
  rintro ⟨cnt, h⟩
  have h2 := h [("c", 1), ("c", 2)] "c" (some (3/2)) (by
    norm_num [grouped_median, drop_duplicates, dd_aux, median,
      List.insertionSort, List.orderedInsert])
  have h3 := h [("c", 1), ("c", 3/2), ("c", 2)] "c" (some (3/2)) (by
    norm_num [grouped_median, drop_duplicates, dd_aux, median,
      List.insertionSort, List.orderedInsert])
  rw [show (([("c", (1:ℚ)), ("c", 2)]).filter (fun r => r.1 == "c")).length = 2 by rfl] at h2
  rw [show (([("c", (1:ℚ)), ("c", 3/2), ("c", 2)]).filter (fun r => r.1 == "c")).length = 3
    by rfl] at h3
  omega

/-- C4 amended: for every input collection and the h3_index grouping key,
the Aggregator produces exactly one summary record per distinct key value,
and each summary record contains the key and the median of the depth
attribute; the count of contributing records is not part of the output. -/
theorem grouped_median_key_and_median_only (rows : List (String × ℚ)) :
    ((grouped_median rows).map Prod.fst).Nodup ∧
    (∀ k, k ∈ (grouped_median rows).map Prod.fst ↔ k ∈ rows.map Prod.fst) ∧
    (∀ k m, (k, m) ∈ grouped_median rows →
        m = median ((rows.filter (fun r => r.1 == k)).map Prod.snd)) := by
  refine ⟨?_, ?_, fun k m hm => grouped_median_mem_eq rows k m hm⟩
  · rw [grouped_median_keys]
    exact ((List.perm_insertionSort _ _).nodup_iff).mpr (drop_duplicates_nodup _)
  · intro k
    rw [grouped_median_keys, (List.perm_insertionSort _ _).mem_iff]
    exact drop_duplicates_mem _ k

/-- Witness for the amended C4 at a concrete input. -/
theorem grouped_median_key_and_median_only_witness :
    (("d" : String) ∈ (grouped_median [("d", (2:ℚ))]).map Prod.fst
        ↔ ("d" : String) ∈ [(("d" : String), (2:ℚ))].map Prod.fst) ∧
    some (2:ℚ) = median (([(("d" : String), (2:ℚ))].filter (fun r => r.1 == "d")).map Prod.snd) :=
  ⟨(grouped_median_key_and_median_only [("d", 2)]).2.1 "d",
   (grouped_median_key_and_median_only [("d", 2)]).2.2 "d" (some 2) (by decide)⟩

/-! ## Indexer lemmas -/

theorem csb_h3_column (rows : List CsbRow) (meta : CsbMeta) :
    (create_csb_gdf rows meta).map (fun r => r.h3_index)
      = rows.map (fun r => geo_to_h3 r.lat r.lon 11) := by
  simp only [create_csb_gdf, List.map_map]
  rfl

/-- C5 counterexample: create_h3_hex does not emit one cell identifier per
input coordinate.  Two input coordinates that land in the same cell (here
two identical points) produce a single identifier, because the indices are
wrapped in a set before the geometry is built. -/
theorem create_h3_hex_collapses_duplicate_cells :
    (create_h3_hex 11 [10, 10] [20, 20]).length = 1 ∧
    ([(10:ℚ), 10].zip [(20:ℚ), 20]).length = 2 := by
  refine ⟨?_, rfl⟩
  simp [create_h3_hex, h3_index_set, drop_duplicates, dd_aux]

/-- C5 amended: the csv-path indexer (create_csb_gdf) emits one cell
identifier per input record, with no collapsing; but the per-file hex
indexer (create_h3_hex) wraps its identifiers in a set, whose index list
h3_index_set is duplicate-free — so coordinates falling in one cell are
already collapsed inside the indexing stage, not only by the Deduplicator. -/
theorem indexing_dedup_locus (meta : CsbMeta) (rows : List CsbRow) (res : ℕ)
    (lats lons : List ℚ) :
    ((create_csb_gdf rows meta).map (fun r => r.h3_index)
        = rows.map (fun r => geo_to_h3 r.lat r.lon 11)) ∧
    (create_csb_gdf rows meta).length = rows.length ∧
    (h3_index_set res lats lons).Nodup :=
  ⟨csb_h3_column rows meta, by simp [create_csb_gdf], drop_duplicates_nodup _⟩

/-- C6: in the per-source indexing loop of the hex-pdal notebook, the
intermediate artifact path is a function of the survey name and the
resolution only: two different source files of the same run are written to
one and the same path, so their artifacts are not distinct per
(source file, resolution) pair and the later write silently overwrites the
earlier one. -/
theorem per_source_artifact_name_collision :
    per_source_output "/out" "test" "a.xyz" 6 = per_source_output "/out" "test" "b.xyz" 6 ∧
    ("a.xyz" : String) ≠ "b.xyz" :=
  ⟨rfl, by decide⟩

/-- C7 counterexample: a record whose latitude 100 is outside the valid
geographic range is not skipped: create_csb_gdf indexes it like any other
row and keeps it in the output (one output record, not zero), and no
error of any kind is raised — the embedding of the pipeline is total. -/
theorem out_of_range_record_not_skipped :
    ¬ validCoord 100 50 ∧
    (create_csb_gdf [⟨100, 50, 5, "2021-01-01T00:00:00", "provider"⟩] metadataDict).length
      = 1 := by
  refine ⟨fun h => ?_, rfl⟩
  have h1 := h.2.1
  norm_num at h1

/-- C7 amended: the code performs no coordinate validation at all: every
source record, whether or not its coordinates are in the valid geographic
range, is passed to the indexing call and produces an indexed output
record; no record is skipped and no InvalidCoordinateError exists in the
code. -/
theorem create_csb_gdf_indexes_all_rows (meta : CsbMeta) (rows : List CsbRow) (r : CsbRow)
    (hr : r ∈ rows) :
    (create_csb_gdf rows meta).length = rows.length ∧
    geo_to_h3 r.lat r.lon 11 ∈ (create_csb_gdf rows meta).map (fun x => x.h3_index) := by
  refine ⟨by simp [create_csb_gdf], ?_⟩
  rw [csb_h3_column]
  exact List.mem_map_of_mem _ hr

/-- Witness for the amended C7 at a concrete one-row input. -/
theorem create_csb_gdf_indexes_all_rows_witness :
    (create_csb_gdf [⟨45, -80, 12, "2021-02-03T00:00:00", "vessel"⟩] metadataDict).length
        = [(⟨45, -80, 12, "2021-02-03T00:00:00", "vessel"⟩ : CsbRow)].length ∧
    geo_to_h3 (45:ℚ) (-80) 11 ∈
      (create_csb_gdf [⟨45, -80, 12, "2021-02-03T00:00:00", "vessel"⟩] metadataDict).map
        (fun x => x.h3_index) :=
  create_csb_gdf_indexes_all_rows metadataDict _ _ (List.mem_singleton.mpr rfl)

/-! ## Remote order API lemmas -/

/-- C8 counterexample: a non-201 submission response is not surfaced as an
error: csb_api_call returns Python's None (modelled as none), a normal
return value, and the caller continues with a missing result. -/
theorem csb_api_call_error_returns_none :
    csb_api_call ⟨404, "not found"⟩ = none ∧ (404 : ℕ) ≠ 201 :=
  ⟨rfl, by decide⟩

/-- C8 amended: a 201 response is success and its parsed body is returned;
any other status only prints a message and returns None, so failure is
signalled to the caller solely by the missing (None) result, not by a
raised error. -/
theorem csb_api_call_branch_behavior (resp : HttpResponse) :
    (resp.status_code = 201 → csb_api_call resp = some resp.body) ∧
    (resp.status_code ≠ 201 → csb_api_call resp = none) := by
  constructor <;> intro h <;> simp [csb_api_call, h]

/-- Witness for the amended C8 at concrete responses. -/
theorem csb_api_call_branch_behavior_witness :
    csb_api_call ⟨201, "order created"⟩ = some "order created" ∧
    csb_api_call ⟨500, "server error"⟩ = none :=
  ⟨(csb_api_call_branch_behavior ⟨201, "order created"⟩).1 rfl,
   (csb_api_call_branch_behavior ⟨500, "server error"⟩).2 (by decide)⟩

/-- C9 counterexample: the status of an order is checked exactly once.  For
a remote order that is pending on the first poll and complete from the
second poll on, the notebook's status query returns no result at all, even
though repeating the poll until complete would have succeeded. -/
theorem status_poll_single_check :
    run_status_query pendingThenComplete = Except.ok none ∧
    (pendingThenComplete 1).status = some "complete" :=
  ⟨rfl, rfl⟩

/-- C9 amended: order status is checked exactly once per invocation: the
result of the notebook's status query depends only on the remote's first
response, and equals applying the response handler to that first response;
any repetition is manual re-invocation. -/
theorem run_status_query_depends_only_on_first_response (o o2 : ℕ → StatusResponse)
    (h : o 0 = o2 0) :
    run_status_query o = run_status_query o2 ∧
    run_status_query o = api_call_status (o 0) :=
  ⟨by simp only [run_status_query, h], rfl⟩

/-- Witness for the amended C9 at a concrete pair of remotes agreeing on
their first response. -/
theorem run_status_query_depends_only_on_first_response_witness :
    run_status_query pendingThenComplete
        = run_status_query (fun _ => pendingThenComplete 0) ∧
    run_status_query pendingThenComplete = api_call_status (pendingThenComplete 0) :=
  run_status_query_depends_only_on_first_response pendingThenComplete
    (fun _ => pendingThenComplete 0) rfl

/-! ## Split / last path segment lemmas -/

theorem splitChar_ne_nil (sep : Char) (l : List Char) : splitChar sep l ≠ [] := by
  cases l with
  | nil => simp [splitChar]
  | cons c cs => by_cases h : c = sep <;> simp [splitChar, h]

theorem takeWhile_concat_neg {α : Type} (p : α → Bool) (L : List α) (x : α)
    (hx : p x = false) : (L ++ [x]).takeWhile p = L.takeWhile p := by
  induction L with
  | nil => simp [List.takeWhile, hx]
  | cons a t ih =>
    by_cases h : p a <;> simp [List.takeWhile_cons, h, ih]

theorem takeWhile_concat_stops {α : Type} (p : α → Bool) (L : List α) (x : α)
    (hL : ∃ b ∈ L, p b = false) : (L ++ [x]).takeWhile p = L.takeWhile p := by
  induction L with
  | nil => simp at hL
  | cons a t ih =>
    cases hpa : p a with
    | false => simp [List.takeWhile_cons, hpa]
    | true =>
      obtain ⟨b, hb, hbp⟩ := hL
      rcases List.mem_cons.mp hb with h1 | h1
      · simp [h1, hpa] at hbp
      · simp [List.takeWhile_cons, hpa, ih ⟨b, h1, hbp⟩]

theorem takeWhile_all {α : Type} (p : α → Bool) (L : List α)
    (hL : ∀ b ∈ L, p b = true) : L.takeWhile p = L :=
  List.takeWhile_eq_self_iff.mpr hL

theorem getLastD_default_irrel {α : Type} (t : List α) (h : t ≠ []) (d1 d2 : α) :
    t.getLastD d1 = t.getLastD d2 := by
  cases t with
  | nil => exact absurd rfl h
  | cons a u => rw [List.getLastD_cons, List.getLastD_cons]

theorem splitChar_no_sep (sep : Char) (l : List Char) (h : ∀ c ∈ l, c ≠ sep) :
    splitChar sep l = [l] := by
  induction l with
  | nil => rfl
  | cons c cs ih =>
    have hc : c ≠ sep := h c (List.mem_cons_self c cs)
    have ihr := ih (fun x hx => h x (List.mem_cons_of_mem c hx))
    simp [splitChar, hc, ihr]

theorem splitChar_length_ge_two (sep : Char) (l : List Char) (h : sep ∈ l) :
    2 ≤ (splitChar sep l).length := by
  induction l with
  | nil => simp at h
  | cons c cs ih =>
    by_cases hc : c = sep
    · have h1 : 1 ≤ (splitChar sep cs).length :=
        List.length_pos.mpr (splitChar_ne_nil sep cs)
      simp only [splitChar, if_pos hc, List.length_cons]
      omega
    · have hmem : sep ∈ cs := by
        rcases List.mem_cons.mp h with h1 | h1
        · exact absurd h1.symm hc
        · exact h1
      have h2 := ih hmem
      rcases hr : splitChar sep cs with _ | ⟨hd, tl⟩
      · exact absurd hr (splitChar_ne_nil sep cs)
      · rw [hr] at h2
        simp only [splitChar, if_neg hc, hr, List.length_cons] at h2 ⊢
        simpa using h2

/-- The last piece of a list split on a separator is the trailing run of
non-separator elements: split("/")[-1] is the substring after the last '/'. -/
theorem splitChar_getLastD (l : List Char) :
    (splitChar '/' l).getLastD [] = (l.reverse.takeWhile (fun c => c ≠ '/')).reverse := by
  induction l with
  | nil => simp [splitChar]
  | cons c cs ih =>
    by_cases hc : c = '/'
    · subst hc
      rw [show splitChar '/' ('/' :: cs) = [] :: splitChar '/' cs from by simp [splitChar]]
      rw [List.getLastD_cons, ih, List.reverse_cons,
        takeWhile_concat_neg _ _ _ (by simp)]
    · by_cases hmem : '/' ∈ cs
      · rcases hr : splitChar '/' cs with _ | ⟨hd, tl⟩
        · exact absurd hr (splitChar_ne_nil '/' cs)
        · have h2 := splitChar_length_ge_two '/' cs hmem
          rw [hr] at h2
          have htl : tl ≠ [] := by
            cases tl with
            | nil => simp at h2
            | cons a b => simp
          rw [show splitChar '/' (c :: cs)
              = (c :: (splitChar '/' cs).headD []) :: (splitChar '/' cs).tail from by
                simp [splitChar, hc]]
          rw [hr]
          simp only [List.headD_cons, List.tail_cons]
          rw [List.getLastD_cons, getLastD_default_irrel tl htl (c :: hd) hd,
            show tl.getLastD hd = (hd :: tl).getLastD [] from (List.getLastD_cons _ _ _).symm,
            ← hr, ih, List.reverse_cons,
            takeWhile_concat_stops _ _ _ ⟨'/', List.mem_reverse.mpr hmem, by simp⟩]
      · have hall : ∀ x ∈ cs, x ≠ '/' := fun x hx e => hmem (e ▸ hx)
        rw [show splitChar '/' (c :: cs)
            = (c :: (splitChar '/' cs).headD []) :: (splitChar '/' cs).tail from by
              simp [splitChar, hc]]
        rw [splitChar_no_sep '/' cs hall]
        simp only [List.headD_cons, List.tail_cons]
        rw [List.getLastD_cons]
        have hrhs : ((c :: cs).reverse.takeWhile (fun x => decide (x ≠ '/'))).reverse
            = c :: cs := by
          rw [List.reverse_cons, takeWhile_all _ _ (fun b hb => ?_), List.reverse_append]
          · simp
          · rcases List.mem_append.mp hb with h1 | h1
            · simpa using hall b (List.mem_reverse.mp h1)
            · simp only [List.mem_singleton] at h1
              subst h1
              simpa using hc
        rw [hrhs]
        rfl

/-- C10: when the HTTP response is 200 and the reported status is
'complete', api_call_status returns only the final path segment of the
reported output_location — the substring after the last '/' — not the full
location; when the response is not 200 or the status is not 'complete', it
returns None (a normal Except.ok return, not a raised error). -/
theorem api_call_status_last_segment_or_none (r : StatusResponse) (loc : String) :
    (r.status_code = 200 → r.status = some "complete" → r.output_location = some loc →
      api_call_status r = Except.ok (some (lastSegment loc)) ∧
      lastSegment loc = String.mk ((loc.data.reverse.takeWhile (fun c => c ≠ '/')).reverse)) ∧
    (r.status_code ≠ 200 ∨ r.status ≠ some "complete" →
      api_call_status r = Except.ok none) := by
  constructor
  · intro h1 h2 h3
    refine ⟨by simp [api_call_status, h1, h2, h3], ?_⟩
    exact congrArg String.mk (splitChar_getLastD loc.data)
  · intro h
    rcases h with h | h
    · simp [api_call_status, h]
    · by_cases hcode : r.status_code = 200
      · simp [api_call_status, hcode, h]
      · simp [api_call_status, hcode]

/-- Witness for C10 at a concrete complete order: the returned value is the
file name after the last slash of the pickup URL. -/
theorem api_call_status_last_segment_or_none_witness :
    (api_call_status
        ⟨200, some "complete", some "https://order-pickup.s3.amazonaws.com/2021/file.csv"⟩
      = Except.ok (some (lastSegment "https://order-pickup.s3.amazonaws.com/2021/file.csv")) ∧
      lastSegment "https://order-pickup.s3.amazonaws.com/2021/file.csv"
        = String.mk ((("https://order-pickup.s3.amazonaws.com/2021/file.csv" : String)
            |>.data.reverse.takeWhile (fun c => c ≠ '/')).reverse)) ∧
    lastSegment "https://order-pickup.s3.amazonaws.com/2021/file.csv" = "file.csv" :=
  ⟨(api_call_status_last_segment_or_none _ _).1 rfl rfl rfl, by decide⟩

end GlosGeo
